import Mathlib

/-!
Shallow embedding of `src/quantum_circuit/gates.py`.

Python integers are modelled by `ℤ` (with `ℕ` where the source value is
evidently non-negative), Python's bitwise `&` on arbitrary integers by
`pyAnd` (two's complement, proved equal to Mathlib's `Int.land`), and the
complex amplitude vectors of `State` by lists over a commutative-ring-like
carrier.  All amplitudes appearing in the verified facts lie in `ℤ` or in
`ℚ₂ = {(a + b·√2) / 2^e}`, represented exactly by the structure `Q2`, so
every evaluation is exact and decidable (the spec's "floating tolerance"
is replaced by exact equality, which is stronger).
-/

namespace QuantumCircuit

/-- Python's bitwise `&` on arbitrary-precision signed integers (two's
complement semantics), written so that every branch reduces in the kernel:
`m AND NOT n` is computed as `m - (m &&& n)`. -/
def pyAnd : ℤ → ℤ → ℤ
  | .ofNat m, .ofNat n => .ofNat (m &&& n)
  | .ofNat m, .negSucc n => .ofNat (m - (m &&& n))
  | .negSucc m, .ofNat n => .ofNat (n - (n &&& m))
  | .negSucc m, .negSucc n => .negSucc (m ||| n)

/-! ### Bit-index algebra (`gates.py`, module-level helpers) -/

/-- `_is_set(i, k)`: `(1 << i) & k != 0` (gates.py line 250). -/
def is_set (i k : ℕ) : Bool := (1 <<< i) &&& k != 0

/-- `mul(iterator)`: running product starting from `1` (gates.py line 243). -/
def mul {α : Type} [Mul α] [One α] (l : List α) : α := l.foldl (· * ·) 1

/-- `_clear_bits(basis_state, apply_qubits)` (gates.py line 255).  Python
parses `basis_state - sum(1 << i for i in apply_qubits) & basis_state` as
`(basis_state - sum(...)) & basis_state`, and the subtraction can go
negative, so the computation lives in `ℤ` with Python's `&`. -/
def clear_bits (basis_state : ℕ) (apply_qubits : List ℕ) : ℤ :=
  pyAnd ((basis_state : ℤ) - ((apply_qubits.map (fun i => (2:ℤ) ^ i)).sum))
    (basis_state : ℤ)

/-- `_extract_sub_basis_state(basis_state, qubits)` (gates.py line 259):
`sum(1 << i for i in range(len(qubits)) if basis_state & (1 << qubits[i]) != 0)`. -/
def extract_sub_basis_state (basis_state : ℕ) (qubits : List ℕ) : ℕ :=
  (((List.range qubits.length).filter
      (fun i => basis_state &&& (1 <<< qubits.getD i 0) != 0)).map
    (fun i => 1 <<< i)).sum

/-- The `set_apply` sum inside `_insert_sub_bit_superpos` (gates.py lines
295-300): `sum(1 << apply_qubits[i] for i in range(len(apply_qubits)) if (i + 1) & k)`.
Note the source tests `(i + 1) & k`, not `(1 << i) & k`. -/
def set_apply_bits (apply_qubits : List ℕ) (k : ℕ) : ℕ :=
  (((List.range apply_qubits.length).filter (fun i => (i + 1) &&& k != 0)).map
    (fun i => 1 <<< apply_qubits.getD i 0)).sum

/-- `_insert_sub_bit_superpos(basis_size, state, insert_state, apply_qubits)`
(gates.py line 277): start from the zero vector of length `basis_size`, and
for each local index `k` write `insert_state[k]` at `set_apply + empty_apply`.
A write outside `[0, basis_size)` is a numpy `IndexError`, modelled as `none`. -/
def insert_sub_bit_superpos {α : Type} [Zero α] (basis_size : ℕ) (state : ℕ)
    (insert_state : List α) (apply_qubits : List ℕ) : Option (List α) :=
  let empty_apply := (clear_bits state apply_qubits).toNat
  (List.range insert_state.length).foldlM
    (fun out k =>
      let idx := set_apply_bits apply_qubits k + empty_apply
      if idx < basis_size then some (out.set idx (insert_state.getD k 0))
      else none)
    (List.replicate basis_size (0 : α))

/-- Modelled from the spec: `State.from_basis_state(basis_size, k)` — the
`State` class lives in `quantum_circuit/state.py`, which is not among the
sources; the spec (section 3) fixes it as "one unit amplitude at index k,
zero elsewhere". -/
def State.from_basis_state {α : Type} [Zero α] [One α] (basis_size k : ℕ) :
    List α :=
  (List.range basis_size).map (fun i => if i = k then 1 else 0)

/-! ### Exact amplitude carrier with `√2` -/

/-- Exact dyadic `√2`-rationals: `⟨a, b, e⟩` denotes `(a + b·√2) / 2^e`.
Only `0`, `1`, negation and multiplication are needed by the gates under
verification, so no normalisation is required: all compared values are
produced by the same syntactic computations. -/
structure Q2 where
  a : ℤ
  b : ℤ
  e : ℕ
deriving DecidableEq

instance : Zero Q2 := ⟨⟨0, 0, 0⟩⟩

instance : One Q2 := ⟨⟨1, 0, 0⟩⟩

instance : Neg Q2 := ⟨fun x => ⟨-x.a, -x.b, x.e⟩⟩

instance : Mul Q2 :=
  ⟨fun x y => ⟨x.a * y.a + 2 * x.b * y.b, x.a * y.b + x.b * y.a, x.e + y.e⟩⟩

/-- `1/√2 = √2/2`, the Hadamard normalisation factor. -/
def s2 : Q2 := ⟨0, 1, 1⟩

/-! ### `Gate.controlled_u` (gates.py lines 74-165) -/

/-- The `_eval_bs` closure built by `Gate.controlled_u` (gates.py lines
141-163).  The sub-gate `u` is its `eval_bs` method, a partial map from
local basis indices to amplitude vectors (`none` models a raising call). -/
def controlled_u_eval_bs {α : Type} [Zero α] [One α] (qubit_count : ℕ)
    (u : ℕ → Option (List α)) (apply_qubits control_qubits : List ℕ)
    (basis_state : ℕ) : Option (List α) :=
  let basis_size := 1 <<< qubit_count
  let control_mask := ((control_qubits.map (fun i => 1 <<< i)).sum : ℕ)
  if basis_state &&& control_mask ≠ control_mask then
    some (State.from_basis_state basis_size basis_state)
  else
    (u (extract_sub_basis_state basis_state apply_qubits)).bind
      (fun u_out_state =>
        insert_sub_bit_superpos basis_size basis_state u_out_state apply_qubits)

/-- `Gate.controlled_u` itself (gates.py lines 74-165): the three `assert`
statements run first (`none` models a failing assertion), and only then is
the gate — here the lazy `FunctionalGate` default of `Gate.from_eval_bs`,
i.e. the bare `_eval_bs` closure — constructed. -/
def controlled_u {α : Type} [Zero α] [One α] (qubit_count : ℕ)
    (u : ℕ → Option (List α)) (apply_qubits control_qubits : List ℕ) :
    Option (ℕ → Option (List α)) :=
  if control_qubits.Nodup ∧ apply_qubits.Nodup ∧
      ∀ q ∈ control_qubits, q ∉ apply_qubits then
    some (controlled_u_eval_bs qubit_count u apply_qubits control_qubits)
  else none

/-! ### `Gate.multi_gate` (gates.py lines 49-72) -/

/-- The `_eval_bs` closure built by `Gate.multi_gate` (gates.py lines
58-70).  The source calls `gate(...)` on the *integer*
`_extract_sub_basis_state(basis_state, [qi])` and indexes the result by
`_is_set(i, k)` (a bool implicitly cast to `0`/`1`), so the `gate`
argument is embedded by that interface: a map from basis integers to
amplitude sequences. -/
def multi_gate_eval_bs {α : Type} [Zero α] [One α] [Mul α] (qubit_count : ℕ)
    (gate : ℕ → List α) (apply_qubits : List ℕ) (basis_state : ℕ) :
    Option (List α) :=
  let out_states :=
    apply_qubits.map (fun qi => gate (extract_sub_basis_state basis_state [qi]))
  let out_state :=
    (List.range (1 <<< apply_qubits.length)).map
      (fun k => mul ((List.range out_states.length).map
        (fun i => (out_states.getD i []).getD (if is_set i k then 1 else 0) 0)))
  insert_sub_bit_superpos (1 <<< qubit_count) basis_state out_state apply_qubits

/-! ### The two `Gate` variants (gates.py lines 168-240) -/

/-- The tagged variant behind the `Gate` interface: `FunctionalGate` wraps
the `_eval_bs` function (partial: `none` models a raising call),
`MatrixGate` stores a dense matrix as a list of rows. -/
inductive GateV (α : Type) where
  | functional (qubit_count : ℕ) (f : ℤ → Option (List α))
  | matrix (qubit_count : ℕ) (m : List (List α))

def GateV.qubitCount {α : Type} : GateV α → ℕ
  | .functional qc _ => qc
  | .matrix qc _ => qc

/-- `eval_bs` of both variants.  `FunctionalGate.eval_bs` (line 178) just
calls the wrapped function — no range check.  `MatrixGate.eval_bs`
(line 213) is numpy column indexing `self.matrix[:, basis_state]`: valid
for `-ncols ≤ k < ncols` with negative indices counting from the end,
`IndexError` (`none`) otherwise. -/
def GateV.eval_bs {α : Type} [Zero α] : GateV α → ℤ → Option (List α)
  | .functional _ f, k => f k
  | .matrix _ m, k =>
    let ncols : ℤ := ((m.getD 0 []).length : ℤ)
    if 0 ≤ k ∧ k < ncols then
      some (m.map (fun row => row.getD k.toNat 0))
    else if -ncols ≤ k ∧ k < 0 then
      some (m.map (fun row => row.getD (ncols + k).toNat 0))
    else none

/-- Modelled from the spec: pointwise `State` addition ("supports addition
(superposition)", spec section 3); `state.py` is not among the sources. -/
def vecAdd {α : Type} [Add α] (v w : List α) : List α := List.zipWith (· + ·) v w

/-- Modelled from the spec: scalar `·` `State` multiplication, as used by
`apply(state) = sum over k of state[k] * eval_bs(k)` (spec section 4.2);
`state.py` is not among the sources. -/
def scale {α : Type} [Mul α] (c : α) (v : List α) : List α := v.map (fun x => c * x)

/-- `np.dot(matrix, amplitudes)`: row-by-row dot product. -/
def matVec {α : Type} [Mul α] [Add α] [Zero α] (m : List (List α)) (v : List α) :
    List α :=
  m.map (fun row => (List.zipWith (· * ·) row v).sum)

/-- `np.dot(m1, m2)`: matrix product, entry `(i, j) = Σ_k m1[i][k]·m2[k][j]`. -/
def matMul {α : Type} [Mul α] [Add α] [Zero α] (m1 m2 : List (List α)) :
    List (List α) :=
  m1.map (fun row =>
    (List.range (m2.getD 0 []).length).map (fun j =>
      (List.zipWith (fun a rk => a * rk.getD j 0) row m2).sum))

/-- `FunctionalGate.__call__(state)` (line 189):
`sum(state[k] * self.eval_bs(k) for k in range(self.basis_size))`. -/
def callF {α : Type} [Mul α] [Add α] [Zero α] (qc : ℕ)
    (f : ℤ → Option (List α)) (state : List α) : Option (List α) :=
  (List.range (1 <<< qc)).foldlM
    (fun acc k => (f (Int.ofNat k)).map
      (fun s => vecAdd acc (scale (state.getD k 0) s)))
    (List.replicate (1 <<< qc) (0 : α))

/-- `__call__` of both variants (`apply` in the spec's vocabulary). -/
def GateV.apply {α : Type} [Mul α] [Add α] [Zero α] :
    GateV α → List α → Option (List α)
  | .functional qc f, state => callF qc f state
  | .matrix _ m, state => some (matVec m state)

/-- `FunctionalGate.__mul__(gate2)` (line 193):
`FunctionalGate(self.qubit_count, lambda bs: self(gate2.eval_bs(bs)))`. -/
def fmul {α : Type} [Mul α] [Add α] [Zero α] (g1 g2 : GateV α) : GateV α :=
  .functional g1.qubitCount (fun bs => (g2.eval_bs bs).bind (fun s => g1.apply s))

/-- The `*` dispatch: `MatrixGate.__mul__` (line 233) multiplies matrices
when both operands are `MatrixGate` and otherwise returns `gate2 * self`,
which lands in `FunctionalGate.__mul__`; `FunctionalGate.__mul__` always
builds the functional composition. -/
def gmul {α : Type} [Mul α] [Add α] [Zero α] (g1 g2 : GateV α) : GateV α :=
  match g1, g2 with
  | .matrix qc m1, .matrix _ m2 => .matrix qc (matMul m1 m2)
  | .matrix qc m1, g2 => fmul g2 (.matrix qc m1)
  | g1, g2 => fmul g1 g2

/-! ### Concrete fixtures used by counterexamples and witnesses -/

/-- `eval_bs` of the single-qubit Hadamard gate `H = [[1,1],[1,-1]]/√2`:
column `k` of its matrix, raising (`none`) outside `[0, 2)`. -/
def uHad : ℕ → Option (List Q2) := fun k =>
  if k = 0 then some [s2, s2] else if k = 1 then some [s2, -s2] else none

/-- The single-qubit Hadamard as the basis-to-amplitudes map that
`multi_gate` consumes (total on the indices `multi_gate` produces). -/
def hadCol : ℕ → List Q2 := fun k => if k = 0 then [s2, s2] else [s2, -s2]

/-- The Hadamard matrix `[[1,1],[1,-1]]/√2`. -/
def hadM : List (List Q2) := [[s2, s2], [s2, -s2]]

/-- The Kronecker product of two matrices (the spec's "direct Kronecker
construction"): block `(r1, r2)` rows with entrywise products. -/
def kron {α : Type} [Mul α] (m1 m2 : List (List α)) : List (List α) :=
  m1.flatMap
    (fun r1 => m2.map (fun r2 => r1.flatMap (fun x => r2.map (fun y => x * y))))

/-- The Pauli-X (NOT) gate as a `MatrixGate` on one qubit. -/
def Xg : GateV ℤ := .matrix 1 [[0, 1], [1, 0]]

/-- The Pauli-Z gate as a `FunctionalGate` on one qubit: `|0> ↦ |0>`,
`|1> ↦ -|1>`, raising outside `[0, 2)`. -/
def Zf : GateV ℤ :=
  .functional 1 (fun k => if k = 0 then some [1, 0]
    else if k = 1 then some [0, -1] else none)

/-- An everywhere-raising sub-gate `eval_bs` (defined on no input). -/
def uNone : ℕ → Option (List ℤ) := fun _ => none

/-- A sub-gate `eval_bs` differing from `uNone` everywhere. -/
def uUnit : ℕ → Option (List ℤ) := fun _ => some [1]

/-- An everywhere-raising `FunctionalGate` wrapped function. -/
def fNone : ℤ → Option (List ℤ) := fun _ => none

/-- A trivial basis-to-amplitudes map for `multi_gate` witnesses. -/
def gUnit : ℕ → List ℤ := fun _ => [1]

/-- A second, different basis-to-amplitudes map for `multi_gate` witnesses. -/
def gTwo : ℕ → List ℤ := fun _ => [2]

/-! ### Helper lemmas -/

theorem ldiff_eq_sub_and (m n : ℕ) : Nat.ldiff m n = m - (m &&& n) := by
  induction m using Nat.binaryRec generalizing n with
  | z =>
    have h0 : Nat.ldiff 0 n = 0 := by
      apply Nat.eq_of_testBit_eq
      intro k
      simp [Nat.testBit_ldiff]
    simp [h0]
  | f a m ih =>
    rw [← Nat.bit_decomp n, Nat.ldiff_bit, Nat.land_bit, ih]
    have hle : m &&& n.div2 ≤ m := Nat.and_le_left
    cases a <;> cases n.bodd <;> simp [Nat.bit] <;> omega

/-- Sanity check: `pyAnd` agrees with Mathlib's two's complement `Int.land`. -/
theorem pyAnd_eq_land (x y : ℤ) : pyAnd x y = Int.land x y := by
  cases x <;> cases y <;> simp [pyAnd, Int.land, ldiff_eq_sub_and]

theorem and_shiftLeft_ne_zero (bs x : ℕ) :
    (bs &&& 1 <<< x != 0) = bs.testBit x := by
  rw [Nat.one_shiftLeft, Nat.and_two_pow]
  cases hb : bs.testBit x
  · simp
  · have h2 : (2:ℕ) ^ x ≠ 0 := by positivity
    simp [h2]

theorem extract_cons (bs q : ℕ) (qs : List ℕ) :
    extract_sub_basis_state bs (q :: qs)
      = (if bs.testBit q then 1 else 0) + 2 * extract_sub_basis_state bs qs := by
  have hptail : List.filter (fun i => bs &&& 1 <<< ((q :: qs).getD i 0) != 0)
      (List.map Nat.succ (List.range qs.length))
      = List.map Nat.succ (List.filter
          (fun i => bs &&& 1 <<< (qs.getD i 0) != 0) (List.range qs.length)) := by
    rw [List.filter_map]
    refine congrArg (List.map Nat.succ) (List.filter_congr ?_)
    intro a _
    simp [Function.comp, Nat.succ_eq_add_one, List.getD_cons_succ]
  have hsum : ∀ l : List ℕ, ((l.map Nat.succ).map (fun i : ℕ => 1 <<< i)).sum
      = 2 * (l.map (fun i : ℕ => 1 <<< i)).sum := by
    intro l
    induction l with
    | nil => simp
    | cons a l ih =>
      simp only [List.map_cons, List.sum_cons, Nat.succ_eq_add_one]
      rw [ih]
      simp only [Nat.one_shiftLeft, pow_succ]
      ring
  unfold extract_sub_basis_state
  rw [List.length_cons, List.range_succ_eq_map, List.filter_cons, hptail]
  cases hb : bs.testBit q
  · rw [if_neg ?hneg]
    case hneg => simp [List.getD_cons_zero, and_shiftLeft_ne_zero, hb]
    rw [hsum]
    simp
  · rw [if_pos ?hpos]
    case hpos => simp [List.getD_cons_zero, and_shiftLeft_ne_zero, hb]
    rw [List.map_cons, List.sum_cons, hsum]
    simp [Nat.one_shiftLeft]

theorem replicate_set_eq_basis {α : Type} [Zero α] [One α] (n k : ℕ) :
    (List.replicate n (0 : α)).set k 1 = State.from_basis_state n k := by
  apply List.ext_getElem
  · simp [State.from_basis_state]
  · intro i h1 h2
    simp only [State.from_basis_state, List.getElem_set, List.getElem_replicate,
      List.getElem_map, List.getElem_range]
    by_cases hik : k = i
    · simp [hik]
    · rw [if_neg hik, if_neg (fun hh => hik hh.symm)]

/-! ### The claims -/

/-- C5: `clear_bits(basis_state, qubits)` is claimed to force the listed
bits to zero and leave every other bit unchanged.  At `basis_state = 2`,
`qubits = [0]` the claimed value is `2` (bit 0 is already zero), but the
code computes `(2 - 1) & 2 = 0`: the Python expression parses as
`(basis_state - mask) & basis_state`, destroying untouched bits whenever
some listed bit is absent from `basis_state`. -/
theorem clear_bits_drops_untouched_bit :
    clear_bits 2 [0] = 0 ∧ clear_bits 2 [0] ≠ 2 := by
  constructor
  · decide
  · decide

/-- C1: scattering the extracted local unit vector back is claimed to
reproduce the unit basis vector at the original global index.  At
`n = 2`, `bs = 2`, `Q = [0]` the extraction yields local index `0`, but
insertion returns the unit vector at global index `0` instead of `2`:
the buggy `_clear_bits` loses the untouched bit 1 of `bs`. -/
theorem roundtrip_loses_untouched_bits :
    insert_sub_bit_superpos 4 2
      (State.from_basis_state (α := ℤ) 2 (extract_sub_basis_state 2 [0])) [0]
      = some [1, 0, 0, 0] ∧
    insert_sub_bit_superpos 4 2
      (State.from_basis_state (α := ℤ) 2 (extract_sub_basis_state 2 [0])) [0]
      ≠ some (State.from_basis_state (α := ℤ) 4 2) := by
  constructor
  · decide
  · decide

/-- C3: the materialized controlled-Hadamard (`qubit_count = 3`,
`apply_qubits = [1]`, `control_qubits = [0]`) is claimed to equal the
literal 8×8 matrix of the worked example, whose column 5 is
`s2·(e5 + e7)`.  The code instead produces column 5 `s2·(e1 + e3)`:
`_clear_bits(5, [1]) = (5 - 2) & 5 = 1` loses bit 2 of the basis state,
contradicting the docstring's own example. -/
theorem controlled_u_column5_wrong :
    controlled_u_eval_bs 3 uHad [1] [0] 5 = some [0, s2, 0, s2, 0, 0, 0, 0] ∧
    controlled_u_eval_bs 3 uHad [1] [0] 5
      ≠ some [0, 0, 0, 0, 0, s2, 0, s2] := by
  constructor
  · decide
  · decide

/-- C4: `multi_gate(2, H, [0, 1])` is claimed to equal `H ⊗ H`.  At basis
state `2` the code raises instead: `_clear_bits(2, [0, 1]) = (2 - 3) & 2 = 2`
keeps an apply bit set, so the insertion writes at indices `2..5` and index
`4` falls outside the length-4 amplitude vector (numpy `IndexError`),
while the Kronecker column 2 is `[1/2, 1/2, -1/2, -1/2]`. -/
theorem multi_gate_raises_off_kron :
    multi_gate_eval_bs 2 hadCol [0, 1] 2 = none ∧
    multi_gate_eval_bs 2 hadCol [0, 1] 2
      ≠ some ((kron hadM hadM).map (fun row => row.getD 2 0)) := by
  constructor
  · decide
  · decide

/-- C2: `g1 * g2` is claimed to mean "apply `g2` first, then `g1`" in every
variant combination.  For `g1 = X` (MatrixGate) and `g2 = Z`
(FunctionalGate), `MatrixGate.__mul__` delegates to `g2 * g1`, producing
`k ↦ g2.apply(g1.eval_bs(k))` — the opposite order: at basis state 0 the
code yields `-e1` while `g1.apply(g2.eval_bs(0))` is `e1`. -/
theorem mixed_product_swaps_order :
    (gmul Xg Zf).eval_bs 0 = some [0, -1] ∧
    (Zf.eval_bs 0).bind Xg.apply = some [0, 1] ∧
    (gmul Xg Zf).eval_bs 0 ≠ (Zf.eval_bs 0).bind Xg.apply := by
  refine ⟨by decide, by decide, by decide⟩

/-- C8: `controlled_u` validates eagerly: construction fails exactly when
`control_qubits` or `apply_qubits` has a duplicate or the two overlap,
and otherwise returns the (lazy) gate without evaluating anything. -/
theorem controlled_u_validates_eagerly {α : Type} [Zero α] [One α]
    (qubit_count : ℕ) (u : ℕ → Option (List α))
    (apply_qubits control_qubits : List ℕ) :
    controlled_u qubit_count u apply_qubits control_qubits = none ↔
      ¬(control_qubits.Nodup ∧ apply_qubits.Nodup ∧
        ∀ q ∈ control_qubits, q ∉ apply_qubits) := by
  unfold controlled_u
  split_ifs with h
  · exact iff_of_false (by simp) (not_not_intro h)
  · exact iff_of_true rfl h

/-- C9: when not all control qubits of `basis_state` are 1, `controlled_u`'s
evaluator returns the unit State at `basis_state` without invoking `u`:
the result is the same for any two sub-gates, including one whose
`eval_bs` is everywhere undefined. -/
theorem controlled_u_identity_branch {α : Type} [Zero α] [One α]
    (qubit_count : ℕ) (u u₂ : ℕ → Option (List α))
    (apply_qubits control_qubits : List ℕ) (basis_state : ℕ)
    (h : basis_state &&& ((control_qubits.map (fun i => 1 <<< i)).sum : ℕ)
      ≠ (control_qubits.map (fun i => 1 <<< i)).sum) :
    controlled_u_eval_bs qubit_count u apply_qubits control_qubits basis_state
      = some (State.from_basis_state (1 <<< qubit_count) basis_state) ∧
    controlled_u_eval_bs qubit_count u apply_qubits control_qubits basis_state
      = controlled_u_eval_bs qubit_count u₂ apply_qubits control_qubits
          basis_state := by
  constructor
  · unfold controlled_u_eval_bs
    exact if_pos h
  · unfold controlled_u_eval_bs
    rw [if_pos h, if_pos h]

/-- Witness for C9 at `qubit_count = 2`, `control_qubits = [0]`,
`basis_state = 0`, with the everywhere-undefined sub-gate `uNone` and the
everywhere-defined `uUnit`. -/
theorem controlled_u_identity_branch_witness :
    controlled_u_eval_bs 2 uNone [1] [0] 0
      = some (State.from_basis_state (1 <<< 2) 0) ∧
    controlled_u_eval_bs 2 uNone [1] [0] 0
      = controlled_u_eval_bs 2 uUnit [1] [0] 0 :=
  controlled_u_identity_branch 2 uNone uUnit [1] [0] 0 (by decide)

/-- C6: bit `i` of `extract_sub_basis_state(basis_state, qubits)` equals bit
`qubits[i]` of `basis_state` for every `i` below the list length — local
significance follows the list order. -/
theorem extract_follows_list_order (basis_state : ℕ) (qubits : List ℕ)
    (i : ℕ) (h : i < qubits.length) :
    (extract_sub_basis_state basis_state qubits).testBit i
      = basis_state.testBit (qubits.getD i 0) := by
  induction qubits generalizing i with
  | nil => simp at h
  | cons q qs ih =>
    rw [extract_cons]
    cases i with
    | zero =>
      rw [List.getD_cons_zero, Nat.testBit_zero]
      cases hb : basis_state.testBit q <;> simp [hb]
    | succ i =>
      rw [List.getD_cons_succ]
      have h' : i < qs.length := by
        simpa using Nat.lt_of_succ_lt_succ h
      have hdiv : ((if basis_state.testBit q then 1 else 0)
          + 2 * extract_sub_basis_state basis_state qs) / 2
          = extract_sub_basis_state basis_state qs := by
        cases hb : basis_state.testBit q <;> simp [hb]
        omega
      rw [Nat.testBit_succ, hdiv]
      exact ih i h'

/-- Witness for C6 at `basis_state = 8`, `qubits = [3, 1]`, `i = 0`:
qubit 3 becomes the local least-significant bit. -/
theorem extract_follows_list_order_witness :
    (extract_sub_basis_state 8 [3, 1]).testBit 0
      = (8:ℕ).testBit ([3, 1].getD 0 0) :=
  extract_follows_list_order 8 [3, 1] 0 (by decide)

/-- C7 counterexample: `eval_bs` is claimed to fail for every index outside
`[0, basis_size)`, including negative ones; but the `MatrixGate` Pauli-X at
`k = -1` silently returns column 1 (numpy negative indexing). -/
theorem matrix_eval_bs_negative_index_silent :
    Xg.eval_bs (-1) = some [1, 0] ∧ Xg.eval_bs (-1) ≠ none := by
  constructor
  · decide
  · decide

/-- C7 amended: `MatrixGate.eval_bs(k)` fails exactly when `k ≥ basis_size`
or `k < -basis_size` (numpy index range for a `basis_size`-column matrix),
silently accepting negative `k ≥ -basis_size`; `FunctionalGate.eval_bs`
performs no range check at all and returns whatever the wrapped function
returns. -/
theorem eval_bs_range_behaviour {α : Type} [Zero α] (qc : ℕ)
    (m : List (List α)) (f : ℤ → Option (List α)) (k : ℤ)
    (hm : (((m.getD 0 []).length : ℤ)) = 2 ^ qc) :
    ((GateV.matrix qc m).eval_bs k = none ↔
      ((2:ℤ) ^ qc ≤ k ∨ k < -((2:ℤ) ^ qc))) ∧
    (GateV.functional (α := α) qc f).eval_bs k = f k := by
  constructor
  · simp only [GateV.eval_bs, hm]
    generalize ht : (2:ℤ) ^ qc = t
    have hpos : (0:ℤ) < t := by rw [← ht]; positivity
    split_ifs with h1 h2
    · exact iff_of_false (by simp) (by omega)
    · exact iff_of_false (by simp) (by omega)
    · exact iff_of_true rfl (by omega)
  · rfl

/-- Witness for C7 amended, at the Pauli-X matrix and `k = -1`. -/
theorem eval_bs_range_behaviour_witness :
    (((GateV.matrix 1 [[(0:ℤ), 1], [1, 0]]).eval_bs (-1) = none) ↔
      ((2:ℤ) ^ 1 ≤ -1 ∨ (-1:ℤ) < -((2:ℤ) ^ 1))) ∧
    (GateV.functional (α := ℤ) 1 fNone).eval_bs (-1) = fNone (-1) :=
  eval_bs_range_behaviour 1 [[0, 1], [1, 0]] fNone (-1) (by decide)

/-- C10: `multi_gate` with an empty `apply_qubits` list is the identity:
for every basis state below `basis_size` it returns the unit State there,
and the supplied gate is never invoked (the result is identical for any
two gates). -/
theorem multi_gate_empty_is_identity {α : Type} [Zero α] [One α] [Mul α]
    (qubit_count : ℕ) (gate gate₂ : ℕ → List α) (basis_state : ℕ)
    (h : basis_state < 1 <<< qubit_count) :
    multi_gate_eval_bs qubit_count gate [] basis_state
      = some (State.from_basis_state (1 <<< qubit_count) basis_state) ∧
    multi_gate_eval_bs qubit_count gate [] basis_state
      = multi_gate_eval_bs qubit_count gate₂ [] basis_state := by
  have key : ∀ g : ℕ → List α, multi_gate_eval_bs qubit_count g [] basis_state
      = some (State.from_basis_state (1 <<< qubit_count) basis_state) := by
    intro g
    have hclear : clear_bits basis_state [] = (basis_state : ℤ) := by
      unfold clear_bits
      rw [List.map_nil, List.sum_nil, sub_zero]
      show pyAnd (Int.ofNat basis_state) (Int.ofNat basis_state)
        = Int.ofNat basis_state
      simp [pyAnd, Nat.and_self]
    unfold multi_gate_eval_bs insert_sub_bit_superpos
    simp only [List.map_nil, List.length_nil, Nat.shiftLeft_zero,
      List.range_succ, List.range_zero, List.nil_append, List.map_cons,
      hclear, Int.toNat_ofNat, List.length_cons, List.foldlM, set_apply_bits,
      mul, List.foldl_nil, List.filter_nil, List.sum_nil, List.getD_cons_zero,
      Nat.zero_add, h, if_true]
    simp [replicate_set_eq_basis]
  exact ⟨key gate, (key gate).trans (key gate₂).symm⟩

/-- Witness for C10 at `qubit_count = 1`, `basis_state = 0`, with two
different (never-invoked) gates. -/
theorem multi_gate_empty_is_identity_witness :
    multi_gate_eval_bs 1 gUnit [] 0
      = some (State.from_basis_state (1 <<< 1) 0) ∧
    multi_gate_eval_bs 1 gUnit [] 0 = multi_gate_eval_bs 1 gTwo [] 0 :=
  multi_gate_empty_is_identity 1 gUnit gTwo 0 (by decide)

end QuantumCircuit
